/-
Verification of the filesync repository against its specification.

This file shallowly embeds the pure cores of the Go sources:
  lib/psurls (presigned URL codec), lib/wal (write-ahead log framing),
  server/internal/store/memdb (metadata store), server/api/async (janitor),
  server/internal/blobstorage/filesystem, server/api/rest (upload handler),
  client/index (indexer sink), client/filesystem (walker),
  client/filesystem/watch (watcher event filter) and client/plan (planner).

Go maps are modelled as association lists with first-match lookup (Go maps
never hold duplicate keys, so theorems over arbitrary lists carry a
key-nodup hypothesis where it matters); Go `time.Time` values are embedded
as integers (`Time.After` is `>`); byte slices are `List Nat` with entries
below 256.  External collaborators that are out of the repository's scope
(crypto/hmac+sha256, the OS filesystem, net/url query round-tripping, the
fsnotify event source) enter as explicit function parameters or abstract
inputs.
-/
import Mathlib

deriving instance DecidableEq for Except

namespace Filesync

/-! ## Go map model -/

/-- Association-list lookup mirroring a Go map read: the value of the first
binding for the key, if any. -/
def mapGet {α : Type} (m : List (String × α)) (k : String) : Option α :=
  match m with
  | [] => none
  | kv :: rest => if kv.1 = k then some kv.2 else mapGet rest k

/-- Association-list update mirroring a Go map write: replace the first
binding for the key in place, or append a fresh binding. -/
def mapSet {α : Type} (m : List (String × α)) (k : String) (v : α) : List (String × α) :=
  match m with
  | [] => [(k, v)]
  | kv :: rest => if kv.1 = k then (k, v) :: rest else kv :: mapSet rest k v

/-- Association-list removal mirroring a Go map delete. -/
def mapErase {α : Type} (m : List (String × α)) (k : String) : List (String × α) :=
  match m with
  | [] => []
  | kv :: rest => if kv.1 = k then mapErase rest k else kv :: mapErase rest k

/-! ## Go strings helpers -/

/-- Go `strings.HasPrefix`, on the underlying character sequence. -/
def hasPrefixGo (s pre : String) : Bool :=
  pre.data.isPrefixOf s.data

/-- Go `strings.HasSuffix`, on the underlying character sequence. -/
def hasSuffixGo (s suf : String) : Bool :=
  suf.data.isSuffixOf s.data

/-- Drop trailing path separators, as Go `filepath.Base` does first. -/
def stripTrailingSlashes (cs : List Char) : List Char :=
  ((cs.reverse.dropWhile (fun c => c = '/'))).reverse

/-- Characters after the last path separator. -/
def afterLastSlash (cs : List Char) : List Char :=
  ((cs.reverse.takeWhile (fun c => c != '/'))).reverse

/-- Go `path/filepath.Base` for slash-separated paths (no Windows volume
handling, matching the repository's Unix deployment). -/
def baseName (path : String) : String :=
  if path = "" then "."
  else
    let cs := stripTrailingSlashes path.data
    let b := afterLastSlash cs
    if b.isEmpty then "/" else String.mk b

/-! ## Client file operations (client/ops/ops.go)

The Go `Op` is a string type; only the three declared constants ever flow
through the system, so it is embedded as a closed enumeration. -/

/-- File operation kind, from client/ops/ops.go (`OpCreated`, `OpRemoved`,
`OpModified`). -/
inductive Op
  | created
  | removed
  | modified
deriving DecidableEq, Repr

/-- A WAL record, from client/ops/ops.go `FileOp`. -/
structure FileOp where
  path : String
  op : Op
  timestamp : Int
deriving DecidableEq, Repr

/-! ## Client index (client/index/index.go) -/

/-- Client index value, from client/index/index.go `FileMetadata`. -/
structure FileMetadata where
  path : String
  size : Int
  sha256 : String
  mtime : Int
  op : Op
  timestamp : Int
deriving DecidableEq, Repr

/-- Embedding of `Index.IndexerSink` (client/index/index.go): one sink step
updating the index map with an incoming metadata record.  If an entry for
the path exists with a strictly later timestamp the incoming record is
dropped; otherwise it is stored. -/
def indexerSink (idx : List (String × FileMetadata)) (md : FileMetadata) :
    List (String × FileMetadata) :=
  match mapGet idx md.path with
  | some existingMD =>
    if existingMD.timestamp > md.timestamp then idx else mapSet idx md.path md
  | none => mapSet idx md.path md

/-! ## Client planner (client/plan/planner.go) -/

/-- Server snapshot value, from client/api/rest `File`. -/
structure ServerFile where
  key : String
  size : Int
  sha256Checksum : String
deriving DecidableEq, Repr

/-- A plan request, from client/plan/plan.go (`uploadRequest` /
`deleteRequest`). -/
inductive PlanRequest
  | upload (md : FileMetadata)
  | del (filePath : String)
deriving DecidableEq, Repr

/-- Embedding of `Planner.generateWithServerSnapshot` (client/plan/planner.go).
The Go method mutates the caller's `localSnapshot` map in place via
`maps.DeleteFunc`; with explicit state passing this shows up as the second
component of the result: the local snapshot as the caller observes it after
the call.  The server snapshot is only read. -/
def generateWithServerSnapshot (localSnapshot : List (String × FileMetadata))
    (serverSnapshot : List (String × ServerFile)) :
    List PlanRequest × List (String × FileMetadata) :=
  let localSnapshot1 := localSnapshot.filter (fun kv => kv.2.op != Op.removed)
  let uploads := localSnapshot1.foldl (fun acc kv =>
    if kv.2.op != Op.created && kv.2.op != Op.modified then acc
    else
      match mapGet serverSnapshot kv.1 with
      | none => acc ++ [PlanRequest.upload kv.2]
      | some remoteFile =>
        if kv.2.sha256 != remoteFile.sha256Checksum then acc ++ [PlanRequest.upload kv.2]
        else acc) []
  let requests := serverSnapshot.foldl (fun acc kv =>
    match mapGet localSnapshot1 kv.1 with
    | none => acc ++ [PlanRequest.del kv.1]
    | some _ => acc) uploads
  (requests, localSnapshot1)

/-- Embedding of `Planner.Generate` (client/plan/planner.go).  Returns the
plan together with the final states of both caller-supplied maps. -/
def planGenerate (localSnapshot : List (String × FileMetadata))
    (serverSnapshot : Option (List (String × ServerFile))) :
    List PlanRequest × List (String × FileMetadata) × Option (List (String × ServerFile)) :=
  match serverSnapshot with
  | some s =>
    let r := generateWithServerSnapshot localSnapshot s
    (r.1, r.2, some s)
  | none =>
    let requests := localSnapshot.foldl (fun acc kv =>
      match kv.2.op with
      | Op.created => acc ++ [PlanRequest.upload kv.2]
      | Op.modified => acc ++ [PlanRequest.upload kv.2]
      | Op.removed => acc ++ [PlanRequest.del kv.1]) []
    (requests, localSnapshot, none)

/-! ## Walker (client/filesystem/walker.go) -/

/-- What kind of directory entry `filepath.WalkDir` handed to the callback. -/
inductive EntryKind
  | dir
  | regular
  | irregular
deriving DecidableEq, Repr

/-- Observable outcome of one walker callback invocation. -/
inductive WalkAction
  | skip
  | skipDir
  | watchDir
  | emit (op' : FileOp)
deriving DecidableEq, Repr

/-- Embedding of the `filepath.WalkDir` callback in `Walk`
(client/filesystem/walker.go).  `now` is the value of `time.Now().UTC()`
at the visit. -/
def walkStep (now : Int) (path : String) (kind : EntryKind) : WalkAction :=
  if hasSuffixGo path "~" then WalkAction.skip
  else if baseName path ≠ "." && hasPrefixGo (baseName path) "." then
    (if kind = EntryKind.dir then WalkAction.skipDir else WalkAction.skip)
  else if kind = EntryKind.dir then WalkAction.watchDir
  else if kind != EntryKind.regular then WalkAction.skip
  else WalkAction.emit ⟨path, Op.created, now⟩

/-! ## Watcher (client/filesystem/watch/watcher.go) -/

/-- An fsnotify event: a path plus the operation bitmask, one flag per
fsnotify bit the watcher inspects. -/
structure FsEvent where
  name : String
  create : Bool
  remove : Bool
  rename : Bool
  write : Bool
deriving DecidableEq, Repr

/-- Outcome of the `os.Stat` call the watcher performs on `Create` events. -/
inductive StatResult
  | statError
  | statDir
  | statFile
deriving DecidableEq, Repr

/-- Embedding of `Watcher.marshalEvent` (client/filesystem/watch/watcher.go):
the list of FileOps marshalled for one fsnotify event, in source order
(Create, Remove, Rename, Write). -/
def marshalEvent (now : Int) (e : FsEvent) : List FileOp :=
  (if e.create then [⟨e.name, Op.created, now⟩] else []) ++
  (if e.remove then [⟨e.name, Op.removed, now⟩] else []) ++
  (if e.rename then [⟨e.name, Op.removed, now⟩] else []) ++
  (if e.write then [⟨e.name, Op.modified, now⟩] else [])

/-- Embedding of one iteration of the `Watcher.Start` event loop
(client/filesystem/watch/watcher.go): the FileOps appended to the WAL for
one incoming fsnotify event.  `stat` is the result of the `os.Stat` call
made for `Create` events (a stat failure or a directory target short-
circuits the iteration without appending). -/
def watcherHandleEvent (stat : StatResult) (now : Int) (e : FsEvent) : List FileOp :=
  if hasSuffixGo e.name "~" || hasPrefixGo e.name "." then []
  else if e.create && (stat == StatResult.statError) then []
  else if e.create && (stat == StatResult.statDir) then []
  else marshalEvent now e

/-! ## Write-ahead log (lib/wal/wal.go)

The WAL file is a byte list; `Append` writes the message plus a newline
terminator (one buffered write).  The consumer (`next`) repeatedly reads up
to the next newline, retaining partial data on EOF until the terminator
arrives, and returns each completed line without its terminator; after all
appends the entries a consumer can drain are exactly the complete
newline-terminated lines of the file. -/

/-- Embedding of `WAL.Append` (lib/wal/wal.go): write the message followed
by the newline byte. -/
def walAppend (file : List Nat) (msg : List Nat) : List Nat :=
  file ++ msg ++ [10]

/-- The complete newline-terminated entries of a WAL file, each without its
terminator: the sequence of messages successive `WAL.next` calls deliver
(lib/wal/wal.go); a trailing line with no terminator stays pending. -/
def readEntries (file : List Nat) : List (List Nat) :=
  match file with
  | [] => []
  | b :: rest =>
    if b = 10 then [] :: readEntries rest
    else
      match readEntries rest with
      | [] => []
      | l :: ls => (b :: l) :: ls

/-- Messages joined with their newline terminators: the file contents after
appending each message in turn to an empty WAL. -/
def joinAll : List (List Nat) → List Nat
  | [] => []
  | m :: ms => m ++ 10 :: joinAll ms

/-! ## Presigned URL codec (lib/psurls)

HMAC-SHA256 lives in Go's crypto stdlib, outside this repository; it enters
as a `signFn : String → String → List Nat` parameter (signing input and
secret to a MAC byte string).  `url.Values` is an association list from
parameter name to value list; Go's query encode/parse round-trip
(`url.Values.Encode` / `url.Parse`) is the identity on these values. -/

/-- The `url.Values` model. -/
abbrev Values := List (String × List String)

/-- Go `url.Values.Get`: first value of the binding, or the empty string. -/
def getV (values : Values) (k : String) : String :=
  match mapGet values k with
  | some (v :: _) => v
  | some [] => ""
  | none => ""

/-- Presigned URL payload, from lib/psurls `URLData`. -/
structure URLData where
  objectKey : String
  sha256Checksum : String
  size : Int
  mtime : Int
  expiry : Int
  accessKeyID : String
deriving DecidableEq, Repr

/-- Validation failures of lib/psurls `Validate`, tagged; `urlExpired` and
`signatureMismatch` are the sentinel errors `ErrURLExpired` and
`ErrSignatureMismatch`. -/
inductive PsError
  | urlExpired
  | signatureMismatch
  | invalidExpiry
  | missingSignature
  | invalidSignatureEncoding
  | invalidSize
  | invalidMTime
deriving DecidableEq, Repr

/-- Lowercase hex digit for a nibble, as in Go's encoding/hex table. -/
def hexDigitChar (n : Nat) : Char :=
  if n < 10 then Char.ofNat (48 + n) else Char.ofNat (87 + n)

/-- Go `hex.EncodeToString`: two lowercase digits per byte. -/
def hexEncode (bytes : List Nat) : String :=
  String.mk (bytes.foldr (fun b acc =>
    hexDigitChar (b % 256 / 16) :: hexDigitChar (b % 16) :: acc) [])

/-- Numeric value of one hex digit, upper or lower case. -/
def hexDigitVal (c : Char) : Option Nat :=
  if 48 ≤ c.toNat ∧ c.toNat ≤ 57 then some (c.toNat - 48)
  else if 97 ≤ c.toNat ∧ c.toNat ≤ 102 then some (c.toNat - 87)
  else if 65 ≤ c.toNat ∧ c.toNat ≤ 70 then some (c.toNat - 55)
  else none

/-- Go `hex.DecodeString` on the character list: fails on odd length or a
non-hex digit. -/
def hexDecodeChars : List Char → Option (List Nat)
  | [] => some []
  | [_] => none
  | c1 :: c2 :: rest =>
    match hexDigitVal c1, hexDigitVal c2, hexDecodeChars rest with
    | some h, some l, some bs => some ((h * 16 + l) :: bs)
    | _, _, _ => none

/-- Go `hex.DecodeString`. -/
def hexDecode (s : String) : Option (List Nat) :=
  hexDecodeChars s.data

/-- Numeric value of a decimal digit character. -/
def decDigitVal (c : Char) : Option Nat :=
  if 48 ≤ c.toNat ∧ c.toNat ≤ 57 then some (c.toNat - 48) else none

/-- Decimal digit string to Nat, failing on a non-digit. -/
def decDigitsVal (cs : List Char) : Option Nat :=
  cs.foldl (fun acc c =>
    match acc, decDigitVal c with
    | some n, some d => some (n * 10 + d)
    | _, _ => none) (some 0)

/-- Go `strconv.ParseInt(s, 10, 64)`: optional sign, decimal digits, int64
range check; any failure (empty digits, junk characters, overflow) is an
error. -/
def goParseInt (s : String) : Option Int :=
  match s.data with
  | [] => none
  | c :: rest =>
    let signAndDigits : Bool × List Char :=
      if c = '-' then (true, rest)
      else if c = '+' then (false, rest)
      else (false, c :: rest)
    match (if signAndDigits.2.isEmpty then none else decDigitsVal signAndDigits.2) with
    | none => none
    | some n =>
      let v : Int := if signAndDigits.1 then -(n : Int) else (n : Int)
      if -(2 ^ 63) ≤ v ∧ v ≤ 2 ^ 63 - 1 then some v else none

/-- Lexicographic strict order on character lists (for valid UTF-8 this
agrees with Go's byte-wise string order). -/
def charListLt : List Char → List Char → Bool
  | [], [] => false
  | [], _ :: _ => true
  | _ :: _, [] => false
  | a :: as, b :: bs =>
    if a.toNat < b.toNat then true
    else if b.toNat < a.toNat then false
    else charListLt as bs

/-- String ≤, byte-wise as Go compares strings. -/
def strLe (a b : String) : Bool :=
  !(charListLt b.data a.data)

/-- Insert a string into a ≤-sorted list, keeping it sorted. -/
def insertSorted (x : String) : List String → List String
  | [] => [x]
  | y :: ys => if strLe x y then x :: y :: ys else y :: insertSorted x ys

/-- Ascending sort of strings, as Go `sort.Strings`. -/
def sortStrings (l : List String) : List String :=
  l.foldr insertSorted []

/-- Embedding of `psurls.prepareSigData`: the lexicographically sorted
`key=value\n` concatenation over all parameters except `sig`. -/
def prepareSigData (values : Values) : String :=
  let keys := sortStrings (values.map Prod.fst)
  keys.foldl (fun data k =>
    if k = "sig" then data
    else data ++ k ++ "=" ++ getV values k ++ "\n") ""

/-- Embedding of `psurls.Generate` (lib/wal/wal.go, package psurls) up to
the final URL formatting: the query values it signs and emits.  Note the
source assigns the formatted expiry — not the mtime — to the `mtime`
query slot. -/
def psGenerateValues (data : URLData) (secretKey : String)
    (signFn : String → String → List Nat) : Values :=
  let qValues : Values :=
    [("key", [data.objectKey]),
     ("sha256", [data.sha256Checksum]),
     ("size", [Int.repr data.size]),
     ("mtime", [Int.repr data.expiry]),
     ("exp", [Int.repr data.expiry]),
     ("aki", [data.accessKeyID])]
  let sigBytes := signFn (prepareSigData qValues) secretKey
  mapSet qValues "sig" [hexEncode sigBytes]

/-- Embedding of `psurls.Validate` (lib/wal/wal.go, package psurls).  `now`
is `time.Now().UTC().Unix()`; `hmac.Equal` is byte-list equality. -/
def psValidate (values : Values) (secretKey : String) (now : Int)
    (signFn : String → String → List Nat) : Except PsError URLData :=
  match goParseInt (getV values "exp") with
  | none => Except.error PsError.invalidExpiry
  | some exp =>
    if now > exp then Except.error PsError.urlExpired
    else
      let providedSig := getV values "sig"
      if providedSig = "" then Except.error PsError.missingSignature
      else
        match hexDecode providedSig with
        | none => Except.error PsError.invalidSignatureEncoding
        | some providedSigBytes =>
          let expectedSigBytes := signFn (prepareSigData values) secretKey
          if expectedSigBytes ≠ providedSigBytes then Except.error PsError.signatureMismatch
          else
            match goParseInt (getV values "size") with
            | none => Except.error PsError.invalidSize
            | some size =>
              match goParseInt (getV values "mtime") with
              | none => Except.error PsError.invalidMTime
              | some mtime =>
                Except.ok ⟨getV values "key", getV values "sha256", size, mtime, exp,
                  getV values "aki"⟩

/-- A concrete stand-in MAC used only to instantiate `signFn` in closed
theorems: bytes of the signing input followed by the secret. -/
def signTest (data secretKey : String) : List Nat :=
  ((data ++ secretKey).data.map (fun c => c.toNat % 256))

/-- Error strings of lib/psurls as the upload handler surfaces them. -/
def psErrorMessage : PsError → String
  | PsError.urlExpired => "url expired"
  | PsError.signatureMismatch => "signature mismatch"
  | PsError.invalidExpiry => "invalid or missing expiry"
  | PsError.missingSignature => "missing signature"
  | PsError.invalidSignatureEncoding => "invalid signature encoding"
  | PsError.invalidSize => "invalid or missing size"
  | PsError.invalidMTime => "invalid or missing mtime"

/-! ## Server metadata store (server/internal/store/memdb/object_metadata.go)

The emitter is a bounded channel in Go; here it is a Boolean predicate
`emitOk` saying whether `Emit` delivers a given object, and each operation
reports the list of deletion events actually delivered. -/

/-- Server object record, from server/internal/store `ObjectMetadata`. -/
structure ObjectMetadata where
  key : String
  objectID : String
  sha256Checksum : String
  size : Int
  mtime : Int
  createdAt : Int
  completedAt : Option Int
deriving DecidableEq, Repr

/-- The two maps of `memdb.MetadataStore`. -/
structure StoreState where
  keyToObjectMetadata : List (String × ObjectMetadata)
  keyToInflightUploads : List (String × List ObjectMetadata)
deriving DecidableEq, Repr

/-- Result of one store operation: the Go error (if any), the state the
receiver holds afterwards, and the deletion events delivered to the
emitter. -/
structure StoreOpResult where
  err : Option String
  state : StoreState
  events : List ObjectMetadata
deriving DecidableEq, Repr

/-- In-flight uploads recorded for a key (a missing key reads as the empty
list; the store never keeps an empty list in the map). -/
def inflightOf (s : StoreState) (k : String) : List ObjectMetadata :=
  (mapGet s.keyToInflightUploads k).getD []

namespace MemDB

/-- Embedding of `MetadataStore.Create`: append a field-copy of the record
(without `CompletedAt`) to the in-flight list of its key. -/
def create (s : StoreState) (md : ObjectMetadata) : Option String × StoreState :=
  if md.key = "" then (some "key is required for storing metadata", s)
  else if md.objectID = "" then (some "object ID is required for storing metadata", s)
  else
    let inflight' := inflightOf s md.key ++ [{ md with completedAt := none }]
    (none, { s with keyToInflightUploads := mapSet s.keyToInflightUploads md.key inflight' })

/-- Embedding of `MetadataStore.Delete`: a missing completed entry is
success without emission; otherwise the deletion event is emitted (failure
leaves the state untouched) and the completed entry removed. -/
def delete (emitOk : ObjectMetadata → Bool) (s : StoreState) (key : String) : StoreOpResult :=
  match mapGet s.keyToObjectMetadata key with
  | none => ⟨none, s, []⟩
  | some object =>
    if emitOk object then
      ⟨none, { s with keyToObjectMetadata := mapErase s.keyToObjectMetadata key }, [object]⟩
    else ⟨some "could not emit object deletion event", s, []⟩

/-- The mutation `PutObjectCompleted` performs once the emit (if any)
succeeded: set `completedAt = now` on the found in-flight record, assign it
as the completed entry of its key, and drop it from the in-flight list
(deleting the key when the list empties). -/
def promote (s : StoreState) (now : Int) (key objectID : String)
    (object : ObjectMetadata) (inflightObjects : List ObjectMetadata) : StoreState :=
  let object' := { object with completedAt := some now }
  let remaining := inflightObjects.filter (fun obj => obj.objectID != objectID)
  { keyToObjectMetadata := mapSet s.keyToObjectMetadata key object',
    keyToInflightUploads :=
      if remaining.isEmpty then mapErase s.keyToInflightUploads key
      else mapSet s.keyToInflightUploads key remaining }

/-- Embedding of `MetadataStore.PutObjectCompleted`: find the in-flight
record by key and object id, emit a deletion event for any superseded
completed entry (failure leaves the state untouched), then promote the
record. -/
def putObjectCompleted (emitOk : ObjectMetadata → Bool) (now : Int) (s : StoreState)
    (key objectID : String) : StoreOpResult :=
  match mapGet s.keyToInflightUploads key with
  | none => ⟨some "not found", s, []⟩
  | some inflightObjects =>
    match inflightObjects.find? (fun obj => obj.objectID == objectID) with
    | none => ⟨some "object not found in inflight uploads: not found", s, []⟩
    | some object =>
      match mapGet s.keyToObjectMetadata key with
      | some existingObject =>
        if emitOk existingObject then
          ⟨none, promote s now key objectID object inflightObjects, [existingObject]⟩
        else ⟨some "could not emit deletion event for the existing object", s, []⟩
      | none => ⟨none, promote s now key objectID object inflightObjects, []⟩

end MemDB

/-! ## Blob storage (server/internal/blobstorage/filesystem/filesystem.go)

The directory-scoped filesystem handle is a map from file name to byte
content.  SHA-256 of the streamed body is the external `hashFn`. -/

namespace FileSystem

/-- Embedding of `FileSystem.PutObject`: store the body under the object
id, returning the streamed checksum and the byte count written. -/
def putObject (hashFn : List Nat → String) (files : List (String × List Nat))
    (body : List Nat) (objectID : String) : String × Int × List (String × List Nat) :=
  (hashFn body, (body.length : Int), mapSet files objectID body)

/-- Embedding of `FileSystem.DeleteObject`: remove the file; a missing file
(`os.ErrNotExist`) is success with nothing removed. -/
def deleteObject (files : List (String × List Nat)) (objectID : String) :
    Option String × List (String × List Nat) :=
  match mapGet files objectID with
  | none => (none, files)
  | some _ => (none, mapErase files objectID)

end FileSystem

/-! ## Janitor (server/api/async/janitor.go) -/

namespace Janitor

/-- Embedding of `Janitor.cleanup` for one deletion event: the blob-storage
delete the janitor issues (the backoff loop around a deterministic delete
collapses to one call).  The source passes `md.Key` — the logical key —
as the identifier. -/
def cleanup (files : List (String × List Nat)) (md : ObjectMetadata) :
    Option String × List (String × List Nat) :=
  FileSystem.deleteObject files md.key

end Janitor

/-! ## Upload handler (server/api/rest/upload_server.go)

The handler is embedded from the point after `url.Parse` (query parsing is
stdlib).  `http.Error` and `WriteHeader` calls are collected in order; the
status the client observes is the first one.  The source omits `return`
after several `http.Error` calls, and the embedding mirrors that control
flow faithfully. -/

/-- Observable outcome of the upload handler: the `(status, message)`
responses written in order, the metadata store and blob storage afterwards,
and the deletion events emitted. -/
structure UploadResult where
  responses : List (Nat × String)
  store : StoreState
  files : List (String × List Nat)
  events : List ObjectMetadata
deriving DecidableEq, Repr

/-- Embedding of `UploadServer.UploadFile` (server/api/rest/upload_server.go).
`authLookup` is `Auth.GetSecretKeyByID`; `genObjectID` the fresh UUIDv7;
`nowUnix` feeds expiry validation and `nowClock` the record timestamps;
`body` is the request body (the HTTP layer delivers at most
`Content-Length` bytes).  The blob write itself cannot fail in this model
(its Go error branch also lacks a `return`). -/
def uploadFile (signFn : String → String → List Nat) (hashFn : List Nat → String)
    (authLookup : String → Option String) (emitOk : ObjectMetadata → Bool)
    (nowUnix : Int) (nowClock : Int) (genObjectID : String) (values : Values)
    (contentLength : Int) (body : List Nat) (store : StoreState)
    (files : List (String × List Nat)) : UploadResult :=
  match authLookup (getV values "aki") with
  | none => ⟨[(401, "invalid access key id")], store, files, []⟩
  | some secretKey =>
    match psValidate values secretKey nowUnix signFn with
    | Except.error e =>
      match e with
      | PsError.urlExpired => ⟨[(403, psErrorMessage e)], store, files, []⟩
      | PsError.signatureMismatch => ⟨[(403, psErrorMessage e)], store, files, []⟩
      | _ => ⟨[(400, "invalid presigned URL: " ++ psErrorMessage e)], store, files, []⟩
    | Except.ok urlData =>
      let r0 : List (Nat × String) :=
        if contentLength ≠ urlData.size then [(400, "mismatched Content-Length and size")]
        else []
      let objectID := genObjectID
      let cr := MemDB.create store
        ⟨urlData.objectKey, objectID, urlData.sha256Checksum, urlData.size, urlData.mtime,
          nowClock, none⟩
      match cr.1 with
      | some e => ⟨r0 ++ [(500, "could not create object metadata in store: " ++ e)],
          cr.2, files, []⟩
      | none =>
        let po := FileSystem.putObject hashFn files body objectID
        if urlData.sha256Checksum ≠ po.1 then
          ⟨r0 ++ [(400, "provided checksum did not match what was uploaded")],
            cr.2, po.2.2, []⟩
        else if urlData.size ≠ po.2.1 then
          ⟨r0 ++ [(400, "provided file size did not match what was uploaded")],
            cr.2, po.2.2, []⟩
        else
          let pr := MemDB.putObjectCompleted emitOk nowClock cr.2 urlData.objectKey objectID
          match pr.err with
          | some e =>
            ⟨r0 ++ [(500, "failed to mark object metadata as completed when uploading file: "
                ++ e), (201, "")], pr.state, po.2.2, pr.events⟩
          | none => ⟨r0 ++ [(201, "")], pr.state, po.2.2, pr.events⟩

/-! ## Lemmas: the Go map model -/

theorem mapGet_mapSet_self {α : Type} (m : List (String × α)) (k : String) (v : α) :
    mapGet (mapSet m k v) k = some v := by
  induction m with
  | nil => simp [mapGet, mapSet]
  | cons kv rest ih =>
    by_cases h : kv.1 = k
    · simp [mapGet, mapSet, h]
    · simpa [mapGet, mapSet, h] using ih

theorem mapGet_mapSet_ne {α : Type} (m : List (String × α)) (k k' : String) (v : α)
    (h : k' ≠ k) : mapGet (mapSet m k v) k' = mapGet m k' := by
  induction m with
  | nil => simp [mapGet, mapSet, Ne.symm h]
  | cons kv rest ih =>
    by_cases hk : kv.1 = k
    · have hk' : kv.1 ≠ k' := fun hc => h (hc ▸ hk)
      simp [mapGet, mapSet, hk, hk', Ne.symm h]
    · by_cases hk' : kv.1 = k'
      · simp [mapGet, mapSet, hk, hk', h]
      · simpa [mapGet, mapSet, hk, hk'] using ih

theorem mapGet_mapErase_self {α : Type} (m : List (String × α)) (k : String) :
    mapGet (mapErase m k) k = none := by
  induction m with
  | nil => simp [mapGet, mapErase]
  | cons kv rest ih =>
    by_cases h : kv.1 = k
    · simpa [mapErase, h] using ih
    · simpa [mapGet, mapErase, h] using ih

theorem mapGet_mapErase_ne {α : Type} (m : List (String × α)) (k k' : String)
    (h : k' ≠ k) : mapGet (mapErase m k) k' = mapGet m k' := by
  induction m with
  | nil => simp [mapGet, mapErase]
  | cons kv rest ih =>
    by_cases hk : kv.1 = k
    · have hk' : kv.1 ≠ k' := fun hc => h (hc ▸ hk)
      simpa [mapGet, mapErase, hk, hk', Ne.symm h] using ih
    · by_cases hk' : kv.1 = k'
      · simp [mapGet, mapErase, hk, hk', h]
      · simpa [mapGet, mapErase, hk, hk'] using ih

theorem mapGet_none_of_not_mem_keys {α : Type} (m : List (String × α)) (p : String)
    (h : p ∉ m.map Prod.fst) : mapGet m p = none := by
  induction m with
  | nil => simp [mapGet]
  | cons kv rest ih =>
    simp only [List.map_cons, List.mem_cons, not_or] at h
    have h1 : kv.1 ≠ p := fun hc => h.1 hc.symm
    simp [mapGet, h1, ih h.2]

theorem mapGet_filter_none {α : Type} (m : List (String × α)) (f : String × α → Bool)
    (p : String) (h : mapGet m p = none) : mapGet (m.filter f) p = none := by
  induction m with
  | nil => simp [mapGet]
  | cons kv rest ih =>
    rw [mapGet] at h
    by_cases hp : kv.1 = p
    · simp [hp] at h
    · rw [if_neg hp] at h
      rw [List.filter]
      cases f kv with
      | true => simpa [mapGet, hp] using ih h
      | false => exact ih h

theorem mapGet_filter_nodup {α : Type} (m : List (String × α)) (f : String × α → Bool)
    (p : String) (v : α) (hnd : (m.map Prod.fst).Nodup) (h : mapGet m p = some v) :
    mapGet (m.filter f) p = if f (p, v) then some v else none := by
  induction m with
  | nil => simp [mapGet] at h
  | cons kv rest ih =>
    simp only [List.map_cons, List.nodup_cons] at hnd
    rw [mapGet] at h
    by_cases hp : kv.1 = p
    · rw [if_pos hp] at h
      injection h with h
      have hkv : kv = (p, v) := by rw [← hp, ← h]
      subst hkv
      cases hf : f (p, v) with
      | true => simp [List.filter_cons, hf, mapGet]
      | false =>
        have hrest := mapGet_none_of_not_mem_keys rest p hnd.1
        simp [List.filter_cons, hf, mapGet_filter_none rest f p hrest]
    · rw [if_neg hp] at h
      cases hf : f kv with
      | true => simpa [List.filter_cons, hf, mapGet, hp] using ih hnd.2 h
      | false => simpa [List.filter_cons, hf] using ih hnd.2 h

/-! ## Indexer sink (C6) -/

theorem indexerSink_step_mono (idx : List (String × FileMetadata)) (md : FileMetadata)
    (p : String) (e : FileMetadata) (h : mapGet idx p = some e) :
    ∃ e', mapGet (indexerSink idx md) p = some e' ∧ e.timestamp ≤ e'.timestamp := by
  by_cases hp : p = md.path
  · subst hp
    rw [indexerSink, h]
    by_cases ht : e.timestamp > md.timestamp
    · exact ⟨e, by simp [ht, h], le_refl _⟩
    · refine ⟨md, ?_, ?_⟩
      · simp [ht, mapGet_mapSet_self]
      · omega
  · refine ⟨e, ?_, le_refl _⟩
    rw [indexerSink]
    cases hg : mapGet idx md.path with
    | some ex =>
      by_cases ht : ex.timestamp > md.timestamp
      · simpa [ht] using h
      · simpa [ht, mapGet_mapSet_ne idx md.path p md hp] using h
    | none => simpa [mapGet_mapSet_ne idx md.path p md hp] using h

theorem indexerSink_foldl_mono (mds : List FileMetadata)
    (idx : List (String × FileMetadata)) (p : String) (e : FileMetadata)
    (h : mapGet idx p = some e) :
    ∃ e', mapGet (List.foldl indexerSink idx mds) p = some e' ∧
      e.timestamp ≤ e'.timestamp := by
  induction mds generalizing idx e with
  | nil => exact ⟨e, h, le_refl _⟩
  | cons md rest ih =>
    obtain ⟨e1, he1, hle1⟩ := indexerSink_step_mono idx md p e h
    obtain ⟨e2, he2, hle2⟩ := ih (indexerSink idx md) e1 he1
    exact ⟨e2, he2, le_trans hle1 hle2⟩

/-- C6: for every path stored in the client index, the stored entry's
timestamp is non-decreasing across every sequence of sink updates: an
incoming FileMetadata whose timestamp is strictly older than the stored
entry's timestamp is discarded, and otherwise the incoming entry replaces
the stored one. -/
theorem claim_C6_indexerSink_timestamp_monotone :
    (∀ idx (md ex : FileMetadata), mapGet idx md.path = some ex →
       ex.timestamp > md.timestamp → indexerSink idx md = idx) ∧
    (∀ idx (md : FileMetadata),
       (∀ ex, mapGet idx md.path = some ex → ex.timestamp ≤ md.timestamp) →
       mapGet (indexerSink idx md) md.path = some md) ∧
    (∀ (mds : List FileMetadata) idx p (e e' : FileMetadata),
       mapGet idx p = some e →
       mapGet (List.foldl indexerSink idx mds) p = some e' →
       e.timestamp ≤ e'.timestamp) := by
  refine ⟨?_, ?_, ?_⟩
  · intro idx md ex hget ht
    simp [indexerSink, hget, ht]
  · intro idx md hle
    rw [indexerSink]
    cases hget : mapGet idx md.path with
    | some ex =>
      have : ¬ ex.timestamp > md.timestamp := not_lt.mpr (hle ex hget)
      simp [this, mapGet_mapSet_self]
    | none => simp [mapGet_mapSet_self]
  · intro mds idx p e e' hget hget'
    obtain ⟨e'', hg, hle⟩ := indexerSink_foldl_mono mds idx p e hget
    rw [hget'] at hg
    injection hg with hg
    exact hg ▸ hle

/-- Witness for C6 at concrete inputs: an entry with timestamp 5 followed
by an update with timestamp 7 leaves a stored timestamp that has not
decreased. -/
theorem claim_C6_witness :
    mapGet [("a", (⟨"a", 1, "h", 2, Op.created, 5⟩ : FileMetadata))] "a" =
      some ⟨"a", 1, "h", 2, Op.created, 5⟩ ∧
    mapGet (List.foldl indexerSink [("a", (⟨"a", 1, "h", 2, Op.created, 5⟩ : FileMetadata))]
        [⟨"a", 2, "g", 3, Op.modified, 7⟩]) "a" =
      some ⟨"a", 2, "g", 3, Op.modified, 7⟩ ∧
    (5 : Int) ≤ (7 : Int) := by
  refine ⟨by decide, by decide, ?_⟩
  exact claim_C6_indexerSink_timestamp_monotone.2.2
    [⟨"a", 2, "g", 3, Op.modified, 7⟩]
    [("a", ⟨"a", 1, "h", 2, Op.created, 5⟩)] "a"
    ⟨"a", 1, "h", 2, Op.created, 5⟩ ⟨"a", 2, "g", 3, Op.modified, 7⟩
    (by decide) (by decide)

/-! ## Planner (C10) -/

/-- C10: when called with a non-nil server snapshot, `Planner.Generate`
mutates the caller's localSnapshot map in place, deleting every entry whose
Op is Removed from the caller-supplied map, leaving every other entry, and
leaving the serverSnapshot map unchanged.  (With explicit state passing the
caller-observed maps after the call are the second and third components of
`planGenerate`.) -/
theorem claim_C10_planner_mutates_local_snapshot
    (l : List (String × FileMetadata)) (s : List (String × ServerFile))
    (hnd : (l.map Prod.fst).Nodup) :
    ((planGenerate l (some s)).2.2 = some s) ∧
    (∀ p md, mapGet l p = some md → md.op = Op.removed →
       mapGet (planGenerate l (some s)).2.1 p = none) ∧
    (∀ p md, mapGet l p = some md → md.op ≠ Op.removed →
       mapGet (planGenerate l (some s)).2.1 p = some md) := by
  refine ⟨rfl, ?_, ?_⟩
  · intro p md hget hop
    have := mapGet_filter_nodup l (fun kv => kv.2.op != Op.removed) p md hnd hget
    simpa [planGenerate, generateWithServerSnapshot, hop] using this
  · intro p md hget hop
    have := mapGet_filter_nodup l (fun kv => kv.2.op != Op.removed) p md hnd hget
    simpa [planGenerate, generateWithServerSnapshot, hop] using this

/-- Witness for C10 at concrete inputs: a Removed entry disappears from the
caller's local snapshot, a Created entry stays, the server snapshot is
returned unchanged. -/
theorem claim_C10_witness :
    ((planGenerate
        [("a", (⟨"a", 1, "h", 2, Op.removed, 5⟩ : FileMetadata)),
         ("b", (⟨"b", 1, "g", 2, Op.created, 5⟩ : FileMetadata))]
        (some [("c", (⟨"c", 3, "z"⟩ : ServerFile))])).2.2 =
      some [("c", (⟨"c", 3, "z"⟩ : ServerFile))]) ∧
    (mapGet (planGenerate
        [("a", (⟨"a", 1, "h", 2, Op.removed, 5⟩ : FileMetadata)),
         ("b", (⟨"b", 1, "g", 2, Op.created, 5⟩ : FileMetadata))]
        (some [("c", (⟨"c", 3, "z"⟩ : ServerFile))])).2.1 "a" = none) ∧
    (mapGet (planGenerate
        [("a", (⟨"a", 1, "h", 2, Op.removed, 5⟩ : FileMetadata)),
         ("b", (⟨"b", 1, "g", 2, Op.created, 5⟩ : FileMetadata))]
        (some [("c", (⟨"c", 3, "z"⟩ : ServerFile))])).2.1 "b" =
      some ⟨"b", 1, "g", 2, Op.created, 5⟩) := by
  refine ⟨?_, ?_, ?_⟩
  · exact (claim_C10_planner_mutates_local_snapshot _ _ (by decide)).1
  · exact (claim_C10_planner_mutates_local_snapshot _ _ (by decide)).2.1 "a"
      ⟨"a", 1, "h", 2, Op.removed, 5⟩ (by decide) (by decide)
  · exact (claim_C10_planner_mutates_local_snapshot _ _ (by decide)).2.2 "b"
      ⟨"b", 1, "g", 2, Op.created, 5⟩ (by decide) (by decide)

/-! ## Write-ahead log (C7) -/

theorem foldl_walAppend_eq_joinAll (msgs : List (List Nat)) (file : List Nat) :
    List.foldl walAppend file msgs = file ++ joinAll msgs := by
  induction msgs generalizing file with
  | nil => simp [joinAll]
  | cons m ms ih =>
    rw [List.foldl_cons, ih, walAppend, joinAll]
    simp

theorem readEntries_append (m rest : List Nat) (hm : (10 : Nat) ∉ m) :
    readEntries (m ++ 10 :: rest) = m :: readEntries rest := by
  induction m with
  | nil => simp [readEntries]
  | cons b m' ih =>
    simp only [List.mem_cons, not_or] at hm
    have hb : b ≠ 10 := fun hc => hm.1 hc.symm
    rw [List.cons_append, readEntries, if_neg hb, ih hm.2]

/-- C7 counterexample: appending the single one-byte message consisting of
the newline byte does not round-trip; a consumer drains two empty entries
instead of the appended message. -/
theorem claim_C7_counterexample :
    readEntries (List.foldl walAppend [] [[10]]) = [[], []] ∧
    ([[], []] : List (List Nat)) ≠ [[10]] := by decide

/-- C7 (amended: the appended messages contain no newline byte, which all
producers in the repository guarantee by JSON-encoding): appending b1..bn
and consuming until all are produced yields exactly b1..bn in order,
byte-for-byte. -/
theorem claim_C7_wal_roundtrip (msgs : List (List Nat))
    (h : ∀ m ∈ msgs, (10 : Nat) ∉ m) :
    readEntries (List.foldl walAppend [] msgs) = msgs := by
  rw [foldl_walAppend_eq_joinAll, List.nil_append]
  induction msgs with
  | nil => simp [joinAll, readEntries]
  | cons m ms ih =>
    rw [joinAll, readEntries_append m (joinAll ms) (h m (List.mem_cons_self m ms)),
      ih (fun x hx => h x (List.mem_cons_of_mem m hx))]

/-- Witness for C7 at concrete inputs: two newline-free messages
round-trip in order. -/
theorem claim_C7_witness :
    (∀ m ∈ [[65], [66, 67]], (10 : Nat) ∉ m) ∧
    readEntries (List.foldl walAppend [] [[65], [66, 67]]) = [[65], [66, 67]] := by
  refine ⟨by decide, ?_⟩
  exact claim_C7_wal_roundtrip [[65], [66, 67]] (by decide)

/-! ## Walker (C8) -/

/-- C8 counterexample: visiting a regular file at clock 5 the walker emits
a Created FileOp whose timestamp is 5, not the zero-valued sentinel the
claim asserts. -/
theorem claim_C8_counterexample :
    walkStep 5 "a" EntryKind.regular = WalkAction.emit ⟨"a", Op.created, 5⟩ ∧
    (FileOp.mk "a" Op.created 5).timestamp ≠ 0 := by decide

/-- C8 (amended: the synthetic Created FileOp carries `time.Now().UTC()` at
the visit, not a zero-valued sentinel): for every regular file that is not
skipped as temp or hidden, the walker appends a Created FileOp stamped with
the current time. -/
theorem claim_C8_walker_emits_now_timestamp (now : Int) (path : String)
    (h1 : hasSuffixGo path "~" = false)
    (h2 : hasPrefixGo (baseName path) "." = false) :
    walkStep now path EntryKind.regular = WalkAction.emit ⟨path, Op.created, now⟩ := by
  simp [walkStep, h1, h2]

/-- Witness for C8 at a concrete input. -/
theorem claim_C8_witness :
    hasSuffixGo "a/b.txt" "~" = false ∧
    hasPrefixGo (baseName "a/b.txt") "." = false ∧
    walkStep 5 "a/b.txt" EntryKind.regular =
      WalkAction.emit ⟨"a/b.txt", Op.created, 5⟩ := by
  refine ⟨by decide, by decide, ?_⟩
  exact claim_C8_walker_emits_now_timestamp 5 "a/b.txt" (by decide) (by decide)

/-! ## Watcher filter (C9) -/

/-- C9 counterexample: the event path "d/.h" has a final component that
begins with a dot, so the claim says it is filtered out; the watcher's
filter looks at the whole path string, does not filter it, and appends a
FileOp for it. -/
theorem claim_C9_counterexample :
    hasPrefixGo (baseName "d/.h") "." = true ∧
    watcherHandleEvent StatResult.statFile 0 ⟨"d/.h", false, false, false, true⟩ =
      [⟨"d/.h", Op.modified, 0⟩] ∧
    ([⟨"d/.h", Op.modified, 0⟩] : List FileOp) ≠ [] := by decide

/-- C9 (amended: the filter tests the whole path string, not its final
component): an event is filtered out exactly when the full event path
begins with a dot or ends with a tilde; an unfiltered non-Create event
with the Write bit set appends its Modified FileOp. -/
theorem claim_C9_watcher_filters_on_full_path (stat : StatResult) (now : Int) (e : FsEvent) :
    ((hasSuffixGo e.name "~" || hasPrefixGo e.name ".") = true →
       watcherHandleEvent stat now e = []) ∧
    ((hasSuffixGo e.name "~" || hasPrefixGo e.name ".") = false → e.create = false →
       e.write = true →
       FileOp.mk e.name Op.modified now ∈ watcherHandleEvent stat now e) := by
  constructor
  · intro h
    simp [watcherHandleEvent, h]
  · intro h hc hw
    simp [watcherHandleEvent, marshalEvent, h, hc, hw]

/-- Witness for C9 at concrete inputs. -/
theorem claim_C9_witness :
    (hasSuffixGo "d/x.txt" "~" || hasPrefixGo "d/x.txt" ".") = false ∧
    FileOp.mk "d/x.txt" Op.modified 3 ∈
      watcherHandleEvent StatResult.statFile 3 ⟨"d/x.txt", false, false, false, true⟩ := by
  refine ⟨by decide, ?_⟩
  exact (claim_C9_watcher_filters_on_full_path StatResult.statFile 3
    ⟨"d/x.txt", false, false, false, true⟩).2 (by decide) (by decide) (by decide)

/-! ## Presigned URL codec (C1) -/

/-- C1: evaluating the codec at a concrete input shows that the round-trip
does not return the original MTime.  `Generate` is called with
`MTime = 5, Expiry = 1000`; before the expiry instant (`now = 999`)
`Validate` succeeds on the generated query values but returns
`MTime = 1000` — the expiry that `Generate` wrote into the `mtime` query
slot — instead of the 5 that was passed in.  All other fields round-trip. -/
theorem claim_C1_mtime_not_roundtripped :
    psValidate
      (psGenerateValues ⟨"k", "c", 11, 5, 1000, "A"⟩ "secret" signTest)
      "secret" 999 signTest =
      Except.ok ⟨"k", "c", 11, 1000, 1000, "A"⟩ ∧
    (URLData.mk "k" "c" 11 5 1000 "A").mtime ≠ (1000 : Int) := by decide

/-! ## Janitor (C3) -/

/-- C3: evaluating the janitor at a concrete deletion event shows it does
not delete by the event's ObjectID.  The blob lives under the event's
object id "oid1", the event's key is "k1"; the janitor's cleanup passes
`md.Key` to the blob-storage delete, the lookup misses, the miss is
treated as success, and the blob under "oid1" survives. -/
theorem claim_C3_janitor_deletes_by_key_not_object_id :
    Janitor.cleanup [("oid1", [1, 2, 3])] ⟨"k1", "oid1", "c", 3, 0, 0, none⟩ =
      (none, [("oid1", [1, 2, 3])]) ∧
    (ObjectMetadata.mk "k1" "oid1" "c" 3 0 0 none).objectID = "oid1" ∧
    (ObjectMetadata.mk "k1" "oid1" "c" 3 0 0 none).key = "k1" ∧
    mapGet [("oid1", [1, 2, 3])] "oid1" ≠ none := by decide

/-! ## Metadata store (C2, C5) -/

theorem objectID_not_mem_filter (l : List ObjectMetadata) (o : String) :
    o ∉ (l.filter (fun obj => obj.objectID != o)).map (fun obj => obj.objectID) := by
  intro hmem
  simp only [List.mem_map, List.mem_filter, bne_iff_ne] at hmem
  obtain ⟨obj, ⟨_, hne⟩, heq⟩ := hmem
  exact hne heq

theorem promote_completed_get (s : StoreState) (now : Int) (key objectID : String)
    (object : ObjectMetadata) (inflightObjects : List ObjectMetadata) :
    mapGet (MemDB.promote s now key objectID object inflightObjects).keyToObjectMetadata key =
      some { object with completedAt := some now } := by
  simp [MemDB.promote, mapGet_mapSet_self]

theorem promote_inflight_not_mem (s : StoreState) (now : Int) (key objectID : String)
    (object : ObjectMetadata) (inflightObjects : List ObjectMetadata) :
    objectID ∉ (inflightOf (MemDB.promote s now key objectID object inflightObjects) key).map
      (fun obj => obj.objectID) := by
  unfold MemDB.promote inflightOf
  cases he : (inflightObjects.filter (fun obj => obj.objectID != objectID)).isEmpty with
  | true => simp [he, mapGet_mapErase_self]
  | false =>
    simp only [he, Bool.false_eq_true, if_false, mapGet_mapSet_self, Option.getD_some]
    exact objectID_not_mem_filter inflightObjects objectID

/-- C2: after PutObjectCompleted(k, o) succeeds, the completed entry for k
carries object id o, o no longer appears among the in-flight uploads of k,
and if a completed entry p pre-existed for k then exactly the one deletion
event carrying p was emitted; on emitter failure the call returns the
error with the store state unchanged and no event emitted. -/
theorem claim_C2_putObjectCompleted (emitOk : ObjectMetadata → Bool) (now : Int)
    (s : StoreState) (k o : String) :
    ((MemDB.putObjectCompleted emitOk now s k o).err = none →
       (∃ m, mapGet (MemDB.putObjectCompleted emitOk now s k o).state.keyToObjectMetadata k =
          some m ∧ m.objectID = o) ∧
       o ∉ (inflightOf (MemDB.putObjectCompleted emitOk now s k o).state k).map
          (fun obj => obj.objectID) ∧
       (∀ p, mapGet s.keyToObjectMetadata k = some p →
          (MemDB.putObjectCompleted emitOk now s k o).events = [p])) ∧
    (∀ e, (MemDB.putObjectCompleted emitOk now s k o).err = some e →
       (MemDB.putObjectCompleted emitOk now s k o).state = s ∧
       (MemDB.putObjectCompleted emitOk now s k o).events = []) := by
  cases hinf : mapGet s.keyToInflightUploads k with
  | none =>
    have h1 : MemDB.putObjectCompleted emitOk now s k o = ⟨some "not found", s, []⟩ := by
      simp [MemDB.putObjectCompleted, hinf]
    refine ⟨?_, ?_⟩
    · intro h
      rw [h1] at h
      cases h
    · intro e _
      rw [h1]
      exact ⟨rfl, rfl⟩
  | some inflightObjects =>
    cases hfind : inflightObjects.find? (fun obj => obj.objectID == o) with
    | none =>
      have h1 : MemDB.putObjectCompleted emitOk now s k o =
          ⟨some "object not found in inflight uploads: not found", s, []⟩ := by
        simp [MemDB.putObjectCompleted, hinf, hfind]
      refine ⟨?_, ?_⟩
      · intro h
        rw [h1] at h
        cases h
      · intro e _
        rw [h1]
        exact ⟨rfl, rfl⟩
    | some object =>
      have hoid : object.objectID = o := by
        have := List.find?_some hfind
        simpa using this
      cases hcomp : mapGet s.keyToObjectMetadata k with
      | some existing =>
        cases hemit : emitOk existing with
        | true =>
          have h1 : MemDB.putObjectCompleted emitOk now s k o =
              ⟨none, MemDB.promote s now k o object inflightObjects, [existing]⟩ := by
            simp [MemDB.putObjectCompleted, hinf, hfind, hcomp, hemit]
          refine ⟨?_, ?_⟩
          · intro _
            rw [h1]
            refine ⟨⟨{ object with completedAt := some now },
              promote_completed_get s now k o object inflightObjects, hoid⟩,
              promote_inflight_not_mem s now k o object inflightObjects, ?_⟩
            intro p hp
            injection hp with hp
            simp [hp]
          · intro e he
            rw [h1] at he
            exact Option.noConfusion he
        | false =>
          have h1 : MemDB.putObjectCompleted emitOk now s k o =
              ⟨some "could not emit deletion event for the existing object", s, []⟩ := by
            simp [MemDB.putObjectCompleted, hinf, hfind, hcomp, hemit]
          refine ⟨?_, ?_⟩
          · intro h
            rw [h1] at h
            cases h
          · intro e _
            rw [h1]
            exact ⟨rfl, rfl⟩
      | none =>
        have h1 : MemDB.putObjectCompleted emitOk now s k o =
            ⟨none, MemDB.promote s now k o object inflightObjects, []⟩ := by
          simp [MemDB.putObjectCompleted, hinf, hfind, hcomp]
        refine ⟨?_, ?_⟩
        · intro _
          rw [h1]
          refine ⟨⟨{ object with completedAt := some now },
            promote_completed_get s now k o object inflightObjects, hoid⟩,
            promote_inflight_not_mem s now k o object inflightObjects, ?_⟩
          intro p hp
          exact Option.noConfusion hp
        · intro e he
          rw [h1] at he
          exact Option.noConfusion he

/-- Witness for C2 at concrete inputs: completing upload "o" for key "k"
over a pre-existing completed entry promotes "o" and emits exactly the one
event carrying the old entry. -/
theorem claim_C2_witness :
    (MemDB.putObjectCompleted (fun _ => true) 9
      ⟨[("k", ⟨"k", "old", "c0", 1, 1, 0, some 1⟩)],
       [("k", [⟨"k", "o", "c", 1, 2, 0, none⟩])]⟩ "k" "o").err = none ∧
    ((∃ m, mapGet (MemDB.putObjectCompleted (fun _ => true) 9
        ⟨[("k", ⟨"k", "old", "c0", 1, 1, 0, some 1⟩)],
         [("k", [⟨"k", "o", "c", 1, 2, 0, none⟩])]⟩ "k" "o").state.keyToObjectMetadata "k" =
          some m ∧ m.objectID = "o") ∧
     "o" ∉ (inflightOf (MemDB.putObjectCompleted (fun _ => true) 9
        ⟨[("k", ⟨"k", "old", "c0", 1, 1, 0, some 1⟩)],
         [("k", [⟨"k", "o", "c", 1, 2, 0, none⟩])]⟩ "k" "o").state "k").map
          (fun obj => obj.objectID) ∧
     (∀ p, mapGet (StoreState.mk
         [("k", ⟨"k", "old", "c0", 1, 1, 0, some 1⟩)]
         [("k", [⟨"k", "o", "c", 1, 2, 0, none⟩])]).keyToObjectMetadata "k" = some p →
        (MemDB.putObjectCompleted (fun _ => true) 9
          ⟨[("k", ⟨"k", "old", "c0", 1, 1, 0, some 1⟩)],
           [("k", [⟨"k", "o", "c", 1, 2, 0, none⟩])]⟩ "k" "o").events = [p])) := by
  refine ⟨by decide, ?_⟩
  exact (claim_C2_putObjectCompleted (fun _ => true) 9
    ⟨[("k", ⟨"k", "old", "c0", 1, 1, 0, some 1⟩)],
     [("k", [⟨"k", "o", "c", 1, 2, 0, none⟩])]⟩ "k" "o").1 (by decide)

/-- C5: Delete(k) is idempotent (absent completed entry is success with no
event and no state change), two successive deletes emit exactly the events
of the completed entry present at the start (one if present, none
otherwise), Delete never touches the in-flight map, and an emitter failure
returns the error with the state unchanged. -/
theorem claim_C5_delete_idempotent (emitOk : ObjectMetadata → Bool) (s : StoreState)
    (k : String) :
    (mapGet s.keyToObjectMetadata k = none →
       MemDB.delete emitOk s k = ⟨none, s, []⟩) ∧
    ((MemDB.delete emitOk s k).err = none →
       (MemDB.delete emitOk s k).events ++
         (MemDB.delete emitOk (MemDB.delete emitOk s k).state k).events =
         (match mapGet s.keyToObjectMetadata k with
          | some p => [p]
          | none => [])) ∧
    ((MemDB.delete emitOk s k).state.keyToInflightUploads = s.keyToInflightUploads) ∧
    (∀ e, (MemDB.delete emitOk s k).err = some e →
       (MemDB.delete emitOk s k).state = s ∧ (MemDB.delete emitOk s k).events = []) := by
  cases hc : mapGet s.keyToObjectMetadata k with
  | none =>
    have h1 : MemDB.delete emitOk s k = ⟨none, s, []⟩ := by
      simp [MemDB.delete, hc]
    refine ⟨fun _ => h1, ?_, ?_, ?_⟩
    · intro _
      rw [h1]
      simp [h1]
    · rw [h1]
    · intro e he
      rw [h1] at he
      exact Option.noConfusion he
  | some p =>
    cases hemit : emitOk p with
    | true =>
      have h1 : MemDB.delete emitOk s k =
          ⟨none, { s with keyToObjectMetadata := mapErase s.keyToObjectMetadata k }, [p]⟩ := by
        simp [MemDB.delete, hc, hemit]
      have h2 : MemDB.delete emitOk
          ({ s with keyToObjectMetadata := mapErase s.keyToObjectMetadata k }) k =
          ⟨none, { s with keyToObjectMetadata := mapErase s.keyToObjectMetadata k }, []⟩ := by
        simp [MemDB.delete, mapGet_mapErase_self]
      refine ⟨?_, ?_, ?_, ?_⟩
      · intro h
        exact Option.noConfusion h
      · intro _
        rw [h1]
        simp [h2]
      · rw [h1]
      · intro e he
        rw [h1] at he
        exact Option.noConfusion he
    | false =>
      have h1 : MemDB.delete emitOk s k =
          ⟨some "could not emit object deletion event", s, []⟩ := by
        simp [MemDB.delete, hc, hemit]
      refine ⟨?_, ?_, ?_, ?_⟩
      · intro h
        exact Option.noConfusion h
      · intro h
        rw [h1] at h
        exact Option.noConfusion h
      · rw [h1]
      · intro e he
        rw [h1]
        exact ⟨rfl, rfl⟩

/-- Witness for C5 at concrete inputs: deleting key "k" twice emits exactly
the single event carrying the completed entry present at the start. -/
theorem claim_C5_witness :
    (MemDB.delete (fun _ => true)
      ⟨[("k", ⟨"k", "o", "c", 1, 1, 0, some 2⟩)], []⟩ "k").err = none ∧
    ((MemDB.delete (fun _ => true)
        ⟨[("k", ⟨"k", "o", "c", 1, 1, 0, some 2⟩)], []⟩ "k").events ++
      (MemDB.delete (fun _ => true)
        (MemDB.delete (fun _ => true)
          ⟨[("k", ⟨"k", "o", "c", 1, 1, 0, some 2⟩)], []⟩ "k").state "k").events =
      (match mapGet (StoreState.mk
          [("k", ⟨"k", "o", "c", 1, 1, 0, some 2⟩)] []).keyToObjectMetadata "k" with
       | some p => [p]
       | none => [])) := by
  refine ⟨by decide, ?_⟩
  exact (claim_C5_delete_idempotent (fun _ => true)
    ⟨[("k", ⟨"k", "o", "c", 1, 1, 0, some 2⟩)], []⟩ "k").2.1 (by decide)

/-! ## Upload handler (C4) -/

/-- C4 counterexample: a request signed for size 11 arriving with
Content-Length 10 gets the 400 "mismatched Content-Length and size"
response, yet the handler does not stop there: an in-flight metadata
record with the fresh object id is created and the blob is written. -/
theorem claim_C4_counterexample :
    (uploadFile signTest (fun _ => "x")
        (fun a => if a = "A" then some "secret" else none) (fun _ => true) 999 7 "oid"
        (psGenerateValues ⟨"k", "c", 11, 5, 1000, "A"⟩ "secret" signTest)
        10 (List.replicate 10 1) ⟨[], []⟩ []).responses.head? =
      some (400, "mismatched Content-Length and size") ∧
    (inflightOf (uploadFile signTest (fun _ => "x")
        (fun a => if a = "A" then some "secret" else none) (fun _ => true) 999 7 "oid"
        (psGenerateValues ⟨"k", "c", 11, 5, 1000, "A"⟩ "secret" signTest)
        10 (List.replicate 10 1) ⟨[], []⟩ []).store "k").map (fun obj => obj.objectID) =
      ["oid"] ∧
    mapGet (uploadFile signTest (fun _ => "x")
        (fun a => if a = "A" then some "secret" else none) (fun _ => true) 999 7 "oid"
        (psGenerateValues ⟨"k", "c", 11, 5, 1000, "A"⟩ "secret" signTest)
        10 (List.replicate 10 1) ⟨[], []⟩ []).files "oid" =
      some (List.replicate 10 1) := by decide

/-- C4 (amended: the handler responds 400 "mismatched Content-Length and
size" as its first response but does not stop: it generates an object id,
creates an in-flight metadata record and writes the blob; no completed
metadata record is ever created for the request): for every authenticated,
validated upload whose Content-Length differs from the signed size (with
the body delivered per Content-Length), the first response is that 400,
the fresh object id lands in the in-flight uploads of the signed key, the
completed map is unchanged, and no deletion event is emitted. -/
theorem claim_C4_upload_mismatch_continues
    (signFn : String → String → List Nat) (hashFn : List Nat → String)
    (authLookup : String → Option String) (emitOk : ObjectMetadata → Bool)
    (nowUnix nowClock : Int) (genObjectID : String) (values : Values)
    (contentLength : Int) (body : List Nat) (store : StoreState)
    (files : List (String × List Nat)) (secretKey : String) (urlData : URLData)
    (h1 : authLookup (getV values "aki") = some secretKey)
    (h2 : psValidate values secretKey nowUnix signFn = Except.ok urlData)
    (h3 : contentLength ≠ urlData.size)
    (h4 : (body.length : Int) = contentLength)
    (h5 : urlData.objectKey ≠ "")
    (h6 : genObjectID ≠ "") :
    (uploadFile signFn hashFn authLookup emitOk nowUnix nowClock genObjectID values
        contentLength body store files).responses.head? =
      some (400, "mismatched Content-Length and size") ∧
    genObjectID ∈ (inflightOf (uploadFile signFn hashFn authLookup emitOk nowUnix nowClock
        genObjectID values contentLength body store files).store urlData.objectKey).map
        (fun obj => obj.objectID) ∧
    (uploadFile signFn hashFn authLookup emitOk nowUnix nowClock genObjectID values
        contentLength body store files).store.keyToObjectMetadata =
      store.keyToObjectMetadata ∧
    (uploadFile signFn hashFn authLookup emitOk nowUnix nowClock genObjectID values
        contentLength body store files).events = [] := by
  have hsz : urlData.size ≠ ((body.length : Nat) : Int) := by
    rw [h4]
    exact fun hh => h3 hh.symm
  set md0 : ObjectMetadata := ⟨urlData.objectKey, genObjectID, urlData.sha256Checksum,
    urlData.size, urlData.mtime, nowClock, none⟩ with hmd0
  set st1 : StoreState := StoreState.mk store.keyToObjectMetadata
    (mapSet store.keyToInflightUploads urlData.objectKey
      (inflightOf store urlData.objectKey ++ [md0])) with hst1
  have hcr : MemDB.create store md0 = (none, st1) := by
    simp [MemDB.create, hmd0, hst1, h5, h6]
  have hmem : genObjectID ∈ (inflightOf st1 urlData.objectKey).map
      (fun obj => obj.objectID) := by
    simp [hst1, hmd0, inflightOf, mapGet_mapSet_self]
  by_cases hck : urlData.sha256Checksum ≠ hashFn body
  · have hr : uploadFile signFn hashFn authLookup emitOk nowUnix nowClock genObjectID values
        contentLength body store files =
        ⟨[(400, "mismatched Content-Length and size"),
          (400, "provided checksum did not match what was uploaded")],
         st1, mapSet files genObjectID body, []⟩ := by
      simp [uploadFile, h1, h2, h3, hmd0, hcr, FileSystem.putObject, hck]
    rw [hr]
    exact ⟨rfl, hmem, rfl, rfl⟩
  · have hckeq : hashFn body = urlData.sha256Checksum := (not_not.mp hck).symm
    have hr : uploadFile signFn hashFn authLookup emitOk nowUnix nowClock genObjectID values
        contentLength body store files =
        ⟨[(400, "mismatched Content-Length and size"),
          (400, "provided file size did not match what was uploaded")],
         st1, mapSet files genObjectID body, []⟩ := by
      simp [uploadFile, h1, h2, h3, hmd0, hcr, FileSystem.putObject, hckeq, hsz]
    rw [hr]
    exact ⟨rfl, hmem, rfl, rfl⟩

/-- Witness for C4 at concrete inputs (the same request as the
counterexample). -/
theorem claim_C4_witness :
    psValidate (psGenerateValues ⟨"k", "c", 11, 5, 1000, "A"⟩ "secret" signTest)
      "secret" 999 signTest = Except.ok ⟨"k", "c", 11, 1000, 1000, "A"⟩ ∧
    ((uploadFile signTest (fun _ => "x")
        (fun a => if a = "A" then some "secret" else none) (fun _ => true) 999 7 "oid"
        (psGenerateValues ⟨"k", "c", 11, 5, 1000, "A"⟩ "secret" signTest)
        10 (List.replicate 10 1) ⟨[], []⟩ []).responses.head? =
       some (400, "mismatched Content-Length and size") ∧
     "oid" ∈ (inflightOf (uploadFile signTest (fun _ => "x")
        (fun a => if a = "A" then some "secret" else none) (fun _ => true) 999 7 "oid"
        (psGenerateValues ⟨"k", "c", 11, 5, 1000, "A"⟩ "secret" signTest)
        10 (List.replicate 10 1) ⟨[], []⟩ []).store "k").map (fun obj => obj.objectID) ∧
     (uploadFile signTest (fun _ => "x")
        (fun a => if a = "A" then some "secret" else none) (fun _ => true) 999 7 "oid"
        (psGenerateValues ⟨"k", "c", 11, 5, 1000, "A"⟩ "secret" signTest)
        10 (List.replicate 10 1) ⟨[], []⟩ []).store.keyToObjectMetadata =
       (StoreState.mk [] []).keyToObjectMetadata ∧
     (uploadFile signTest (fun _ => "x")
        (fun a => if a = "A" then some "secret" else none) (fun _ => true) 999 7 "oid"
        (psGenerateValues ⟨"k", "c", 11, 5, 1000, "A"⟩ "secret" signTest)
        10 (List.replicate 10 1) ⟨[], []⟩ []).events = []) := by
  refine ⟨by decide, ?_⟩
  exact claim_C4_upload_mismatch_continues signTest (fun _ => "x")
    (fun a => if a = "A" then some "secret" else none) (fun _ => true) 999 7 "oid"
    (psGenerateValues ⟨"k", "c", 11, 5, 1000, "A"⟩ "secret" signTest)
    10 (List.replicate 10 1) ⟨[], []⟩ [] "secret" ⟨"k", "c", 11, 1000, 1000, "A"⟩
    (by decide) (by decide) (by decide) (by decide) (by decide) (by decide)

end Filesync
